import Mathlib

/-!
# A shallow embedding of the `OptimizedApplicationContext` DI container

This file embeds, in Lean, the dependency-injection container of
`examples/spring_di_demo/optimized_spring_di.py` (class
`OptimizedApplicationContext`), and proves the specification's claims
about it.

Modelling conventions:

* Python types are identified by opaque numeric identifiers (`Ty := Nat`);
  the `issubclass` relation and each type's annotated constructor
  parameters (what `inspect.signature` exposes) are supplied by an
  immutable `Env`.
* Python object instances are identified by allocation order: every
  constructor invocation draws a fresh identifier from a counter
  (`State.nextId`).  Two references are to the same object exactly when
  their identifiers are equal.
* Python `dict`s are insertion-ordered association lists; updating an
  existing key keeps its position, inserting a fresh key appends.
* Wall-clock construction durations are abstracted to one tick per
  construction event (`total_time` counts constructions); the claims only
  concern whether metrics change, never actual durations.
* The recursive resolver `get_bean` is given a fuel parameter: `none`
  means the recursion exceeded the fuel.  A call that diverges in Python
  is a call whose embedding returns `none` for every fuel.
* Python exceptions are `Except.error` values carrying the error data;
  class-level mutations performed before the raise are kept (the state is
  returned alongside the error).
-/

namespace SpringDI

/-- Opaque type identifier (a Python `class` object). -/
abbrev Ty := Nat

/-- `Scope` enum of `optimized_spring_di.py`. -/
inductive Scope where
  | singleton
  | prototype
deriving DecidableEq, Repr

/-- A registry entry: the dict
`{'scope': scope, 'primary': primary, 'instance': None}` stored by
`register_component`.  `inst = none` models `'instance': None`; a Python
component object is truthy, so the `if config['instance']` test is
`inst.isSome`. -/
structure Config where
  scope : Scope
  primary : Bool
  inst : Option Nat
deriving DecidableEq, Repr

/-- One `_metrics` record: `{'creation_count': .., 'total_time': ..}`
(time in abstract ticks, one per construction event). -/
structure Metric where
  creation_count : Nat
  total_time : Nat
deriving DecidableEq, Repr

/-- Errors raised by the container.
`typeError ty` is the Python `TypeError` raised by `ty`'s own constructor
when invoked with the wrong set of arguments (it is not a container
error; it propagates through `get_bean` unchanged). -/
inductive DIErr where
  | circular (cycle_path : List Ty)
  | beanNotFound (ty : Ty)
  | typeError (ty : Ty)
deriving DecidableEq, Repr

/-- Immutable ambient facts about the registered classes:
`sub a b` is Python `issubclass(a, b)`, and `ctorParams ty` is the ordered
list of annotated constructor parameters of `ty` (name, annotation) that
`inspect.signature` exposes and `_analyze_dependencies` records. -/
structure Env where
  sub : Ty → Ty → Bool
  ctorParams : Ty → List (String × Ty)

/-- The mutable class-level state of `OptimizedApplicationContext`:
`_component_configs`, `_dependency_cache`, `_creation_order_cache`,
`_metrics`, plus the instance-allocation counter. -/
structure State where
  configs : List (Ty × Config)
  depCache : List (Ty × List (String × Ty))
  creationOrderCache : List (Ty × List Ty)
  metrics : List (Ty × Metric)
  nextId : Nat
deriving DecidableEq, Repr

/-- `cls._component_configs.get(bean_type)`. -/
def lookupConfig (st : State) (ty : Ty) : Option Config :=
  (st.configs.find? (fun p => p.1 == ty)).map (·.2)

/-- Python dict assignment `cls._component_configs[ty] = c`: replace in
place if the key exists, append otherwise. -/
def setConfig (configs : List (Ty × Config)) (ty : Ty) (c : Config) :
    List (Ty × Config) :=
  if configs.any (fun p => p.1 == ty) then
    configs.map (fun p => if p.1 == ty then (p.1, c) else p)
  else
    configs ++ [(ty, c)]

/-- `config['instance'] = instance` for the dict registered under `ty`. -/
def setInst (configs : List (Ty × Config)) (ty : Ty) (i : Nat) :
    List (Ty × Config) :=
  configs.map (fun p => if p.1 == ty then (p.1, { p.2 with inst := some i }) else p)

/-- `cls._metrics[ty]['creation_count'] += 1` and
`cls._metrics[ty]['total_time'] += elapsed` (defaultdict: an absent entry
starts at zero), with elapsed abstracted to one tick. -/
def bumpMetrics (st : State) (ty : Ty) : State :=
  { st with metrics :=
      if st.metrics.any (fun p => p.1 == ty) then
        st.metrics.map (fun p =>
          if p.1 == ty then
            (p.1, ⟨p.2.creation_count + 1, p.2.total_time + 1⟩)
          else p)
      else
        st.metrics ++ [(ty, ⟨1, 1⟩)] }

/-- `_find_implementations`: scan the registry keys in insertion order and
keep the strict subclasses of `interface_type`. -/
def find_implementations (env : Env) (st : State) (interface_type : Ty) : List Ty :=
  (st.configs.map Prod.fst).filter
    (fun c => env.sub c interface_type && c != interface_type)

/-- `_analyze_dependencies`: memoized constructor inspection.  Returns the
updated state and the dependency map.  (The `lru_cache` on the Python
method is cleared exactly when `_dependency_cache` is, so one memo table
models both.) -/
def analyze_dependencies (env : Env) (st : State) (ty : Ty) :
    State × List (String × Ty) :=
  match st.depCache.find? (fun p => p.1 == ty) with
  | some p => (st, p.2)
  | none =>
    let deps := env.ctorParams ty
    ({ st with depCache := st.depCache ++ [(ty, deps)] }, deps)

/-- `register_component`: store the descriptor (replacing any previous
one) and eagerly analyze the constructor's dependencies. -/
def register_component (env : Env) (st : State) (ty : Ty)
    (scope : Scope) (primary : Bool) : State :=
  let st1 := { st with configs := setConfig st.configs ty ⟨scope, primary, none⟩ }
  (analyze_dependencies env st1 ty).1

/-- `clear_cache`: clears `_dependency_cache`, `_creation_order_cache`
and the `lru_cache` of `_analyze_dependencies` — and nothing else. -/
def clear_cache (st : State) : State :=
  { st with depCache := [], creationOrderCache := [] }

/-- Invoking `ty`'s constructor with keyword arguments `args`.  A fresh
instance identifier is allocated on success; Python raises `TypeError`
when the supplied argument names do not match the required parameters.
(Callers always supply arguments in signature order, so list equality of
the name lists coincides with Python's by-name matching here.) -/
def construct (env : Env) (st : State) (ty : Ty) (args : List (String × Nat)) :
    State × Except DIErr Nat :=
  if args.map Prod.fst == (env.ctorParams ty).map Prod.fst then
    ({ st with nextId := st.nextId + 1 }, Except.ok st.nextId)
  else
    (st, Except.error (DIErr.typeError ty))

/-- Result of a fueled resolver call: `none` = fuel exhausted (models
divergence), otherwise the state after the call and either the resolved
instance or the raised error. -/
abbrev Res := Option (State × Except DIErr Nat)

/-- The dependency-resolution loop of `_create_instance_optimized`:
`for param_name, param_type in dependencies_info.items(): resolved[...] =
cls.get_bean(param_type, creation_path)`.  `gb` is the (fueled) resolver
used for the recursive calls. -/
def resolve_deps (gb : State → Ty → List Ty → Res) :
    State → List (String × Ty) → List Ty →
    Option (State × Except DIErr (List (String × Nat)))
  | st, [], _ => some (st, Except.ok [])
  | st, (n, t) :: rest, path =>
    match gb st t path with
    | none => none
    | some (st1, Except.error e) => some (st1, Except.error e)
    | some (st1, Except.ok i) =>
      match resolve_deps gb st1 rest path with
      | none => none
      | some (st2, Except.error e) => some (st2, Except.error e)
      | some (st2, Except.ok args) => some (st2, Except.ok ((n, i) :: args))

/-- `cls._dependency_cache.get(component_type, {})`. -/
def cachedDeps (st : State) (ty : Ty) : List (String × Ty) :=
  ((st.depCache.find? (fun p => p.1 == ty)).map (·.2)).getD []

/-- `_create_instance_optimized`: read the *cached* dependency info (an
absent cache entry reads as `{}`), construct directly when it is empty,
otherwise resolve each dependency recursively and invoke the
constructor. -/
def create_instance (env : Env) (gb : State → Ty → List Ty → Res)
    (st : State) (component_type : Ty) (creation_path : List Ty) : Res :=
  if (cachedDeps st component_type).isEmpty then
    some (construct env st component_type [])
  else
    match resolve_deps gb st (cachedDeps st component_type) creation_path with
    | none => none
    | some (st1, Except.error e) => some (st1, Except.error e)
    | some (st1, Except.ok args) => some (construct env st1 component_type args)

/-- The lookup-or-capability-fallback step of `get_bean` (lines 96–103):
an exact registration wins; otherwise `bean_type` is rebound to the first
implementation found (in registration order), if any.  Returns the
(possibly rebound) type together with its configuration, `none` when the
final `if not config` check would raise `BeanNotFoundError`. -/
def resolve_hit (env : Env) (st : State) (bean_type : Ty) : Ty × Option Config :=
  match lookupConfig st bean_type with
  | some c => (bean_type, some c)
  | none =>
    match find_implementations env st bean_type with
    | [] => (bean_type, none)
    | impl :: _ => (impl, lookupConfig st impl)

/-- The tail of `get_bean` once a configuration was found for the
(possibly rebound) type `t2`: cached-singleton fast path, construction
with the path extended by `t2`, singleton publication, metrics update. -/
def run_resolved (env : Env) (gb : State → Ty → List Ty → Res)
    (st : State) (t2 : Ty) (config : Config) (creation_path : List Ty) : Res :=
  match config.scope, config.inst with
  | Scope.singleton, some i => some (st, Except.ok i)
  | _, _ =>
    match create_instance env gb st t2 (creation_path ++ [t2]) with
    | none => none
    | some (st1, Except.error e) => some (st1, Except.error e)
    | some (st1, Except.ok i) =>
      if config.scope == Scope.singleton then
        some (bumpMetrics { st1 with configs := setInst st1.configs t2 i } t2,
          Except.ok i)
      else
        some (bumpMetrics st1 t2, Except.ok i)

/-- The body of `get_bean`, with the recursive resolver abstracted as
`gb`.  Mirrors `OptimizedApplicationContext.get_bean` line by line:
cycle check on the *requested* type, exact lookup, capability fallback,
`BeanNotFound`, then `run_resolved`. -/
def get_bean_body (env : Env) (gb : State → Ty → List Ty → Res)
    (st : State) (bean_type : Ty) (creation_path : List Ty) : Res :=
  if bean_type ∈ creation_path then
    some (st, Except.error (DIErr.circular (creation_path ++ [bean_type])))
  else
    match resolve_hit env st bean_type with
    | (t2, none) => some (st, Except.error (DIErr.beanNotFound t2))
    | (t2, some config) => run_resolved env gb st t2 config creation_path

/-- The fueled resolver `get_bean(bean_type, _creation_path)`. -/
def get_bean (env : Env) : Nat → State → Ty → List Ty → Res
  | 0, _, _, _ => none
  | fuel + 1, st, bean_type, creation_path =>
    get_bean_body env (get_bean env fuel) st bean_type creation_path

/-- Creation count recorded for `ty` (`0` when no record exists). -/
def creationCount (st : State) (ty : Ty) : Nat :=
  ((st.metrics.find? (fun p => p.1 == ty)).map (·.2.creation_count)).getD 0

/-- The empty initial class state. -/
def initState : State := ⟨[], [], [], [], 0⟩

/-! ## The static validator (`validate_configuration`) -/

/-- One finding of `validate_configuration`: the Python code appends the
strings `"Circular dependency: {cycle_path}"` and
`"Unresolved dependency: {X} -> {Y}"`; we keep the structured data. -/
inductive Issue where
  | cyclic (cycle_path : List Ty)
  | unresolvedDep (component_type : Ty) (param_type : Ty)
deriving DecidableEq, Repr

/-- The `for param_type in dependencies.values()` loop of
`_detect_circular_dependencies`: recurse (via `dc`) into each dependency
that has an exact registration; the first raised cycle propagates.
`some none` = loop finished without raising, `some (some c)` = raised
`CircularDependencyError(c)`, `none` = out of fuel. -/
def detect_loop (dc : Ty → List Ty → List Ty → Option (Option (List Ty)))
    (st : State) : List Ty → List Ty → List Ty → Option (Option (List Ty))
  | [], _, _ => some none
  | param_type :: rest, visited, path =>
    if (lookupConfig st param_type).isSome then
      match dc param_type visited path with
      | none => none
      | some (some c) => some (some c)
      | some none => detect_loop dc st rest visited path
    else
      detect_loop dc st rest visited path

/-- `_detect_circular_dependencies(component_type, visited, path)`:
a revisited type raises with the cycle `path[path.index(type):] + [type]`;
otherwise the type is added to `visited` and `path` (each recursive call
receives copies) and its cached dependencies are walked. -/
def detect_circular : Nat → State → Ty → List Ty → List Ty → Option (Option (List Ty))
  | 0, _, _, _, _ => none
  | fuel + 1, st, component_type, visited, path =>
    if component_type ∈ visited then
      some (some (path.drop (path.findIdx (fun x => x == component_type))
        ++ [component_type]))
    else
      detect_loop (detect_circular fuel st) st
        ((((st.depCache.find? (fun p => p.1 == component_type)).map (·.2)).getD []).map
          Prod.snd)
        (visited ++ [component_type]) (path ++ [component_type])

/-- First loop of `validate_configuration`: run the static cycle detector
from every registered type, in registry order, collecting the raised
cycles.  The state is threaded through untouched — the detector only
reads it.  The fuel `|registry| + 2` dominates the detector's recursion
depth, which is bounded by the number of registered types. -/
def cycle_pass : State → List Ty → List Issue × State
  | st, [] => ([], st)
  | st, component_type :: rest =>
    match detect_circular (st.configs.length + 2) st component_type [] [] with
    | some (some cycle) =>
      (Issue.cyclic cycle :: (cycle_pass st rest).1, (cycle_pass st rest).2)
    | _ => cycle_pass st rest

/-- Second loop of `validate_configuration`: for every cached
`(component_type, deps)` entry, report each dependency that has neither
an exact registration nor any implementation. -/
def unresolved_pass (env : Env) : State → List (Ty × List (String × Ty)) →
    List Issue × State
  | st, [] => ([], st)
  | st, (component_type, deps) :: rest =>
    (deps.filterMap (fun nd =>
      if (lookupConfig st nd.2).isNone &&
          (find_implementations env st nd.2).isEmpty then
        some (Issue.unresolvedDep component_type nd.2)
      else none) ++ (unresolved_pass env st rest).1,
     (unresolved_pass env st rest).2)

/-- `validate_configuration`: cycle findings first (registry order), then
unresolved-dependency findings (dependency-cache order); the state is
threaded through both passes. -/
def validate_configuration (env : Env) (st : State) : List Issue × State :=
  ((cycle_pass st (st.configs.map Prod.fst)).1 ++
    (unresolved_pass env (cycle_pass st (st.configs.map Prod.fst)).2
      (cycle_pass st (st.configs.map Prod.fst)).2.depCache).1,
   (unresolved_pass env (cycle_pass st (st.configs.map Prod.fst)).2
     (cycle_pass st (st.configs.map Prod.fst)).2.depCache).2)

/-! ## Frame relations -/

/-- Entry-wise frame relation on registry entries: resolution never
changes a descriptor's key, scope or primary flag — only `inst` fields
may be written (by singleton publication). -/
def KeyScope (p q : Ty × Config) : Prop :=
  q.1 = p.1 ∧ q.2.scope = p.2.scope ∧ q.2.primary = p.2.primary

/-- `KeyScope` plus: a prototype-scoped descriptor's `inst` field is
never written. -/
def ProtoStep (p q : Ty × Config) : Prop :=
  KeyScope p q ∧ (p.2.scope = Scope.prototype → q.2.inst = p.2.inst)

/-- What any `get_bean` call preserves: the registry spine (keys, scopes,
primary flags), the dependency cache, and monotonicity of the allocation
counter. -/
def frames (st st' : State) : Prop :=
  List.Forall₂ KeyScope st.configs st'.configs ∧
    st'.depCache = st.depCache ∧ st.nextId ≤ st'.nextId

/-- The registry spine evolves entry-wise by `ProtoStep`: in particular
prototype descriptors are left entirely alone. -/
def protoFrames (st st' : State) : Prop :=
  List.Forall₂ ProtoStep st.configs st'.configs

/-! ## Concrete fixtures for witnesses and counterexamples -/

/-- A one-component environment: type `0` has a no-argument constructor
and there are no subclass relations at all. -/
def env0 : Env := ⟨fun _ _ => false, fun _ => []⟩

/-- Type `0` registered as a singleton in an otherwise empty context. -/
def st0 : State := register_component env0 initState 0 Scope.singleton false

/-- The state after one successful `get_bean(0)` on `st0`: the singleton
is published and one creation is on record. -/
def st0run : State :=
  ⟨[(0, ⟨Scope.singleton, false, some 0⟩)], [(0, [])], [], [(0, ⟨1, 1⟩)], 1⟩

/-- Type `0` registered as a prototype in an otherwise empty context. -/
def stProto : State := register_component env0 initState 0 Scope.prototype false

/-- `stProto` after one `get_bean(0)`: nothing cached, one creation. -/
def stProto1 : State :=
  ⟨[(0, ⟨Scope.prototype, false, none⟩)], [(0, [])], [], [(0, ⟨1, 1⟩)], 1⟩

/-- `stProto` after two `get_bean(0)` calls. -/
def stProto2 : State :=
  ⟨[(0, ⟨Scope.prototype, false, none⟩)], [(0, [])], [], [(0, ⟨2, 2⟩)], 2⟩

/-- Capability fixture: concrete types `0` and `1` both implement the
capability type `2`; neither constructor takes arguments. -/
def envCap : Env := ⟨fun a b => (a == 0 || a == 1) && b == 2, fun _ => []⟩

/-- `0` registered first (not primary), `1` registered second (primary);
the capability `2` itself is never registered. -/
def stCap : State :=
  register_component envCap
    (register_component envCap initState 0 Scope.singleton false)
    1 Scope.singleton true

/-- `stCap` after `get_bean(2)`: the first-registered implementation `0`
was constructed and published; the primary `1` was never touched. -/
def stCapRun : State :=
  ⟨[(0, ⟨Scope.singleton, false, some 0⟩), (1, ⟨Scope.singleton, true, none⟩)],
   [(0, []), (1, [])], [], [(0, ⟨1, 1⟩)], 1⟩

/-- Validation fixture: `0` and `1` depend on each other, `2` depends on
the never-registered `3`, no subclass relations. -/
def envVal : Env :=
  ⟨fun _ _ => false,
   fun ty =>
     if ty == 0 then [("b", 1)]
     else if ty == 1 then [("a", 0)]
     else if ty == 2 then [("d", 3)]
     else []⟩

/-- The cyclic pair `0 ↔ 1` and the dangling-dependency holder `2`
registered; `3` is not. -/
def stVal : State :=
  register_component envVal
    (register_component envVal
      (register_component envVal initState 0 Scope.singleton false)
      1 Scope.singleton false)
    2 Scope.singleton false

/-- Only type `0` (which needs `("b", 1)`) registered, for the
cleared-cache fixture. -/
def stVal0 : State := register_component envVal initState 0 Scope.singleton false

/-- Capability-cycle fixture: concrete type `0` implements capability `1`
and its constructor requires a `1`. -/
def envSelf : Env := ⟨fun a b => a == 0 && b == 1, fun ty => if ty == 0 then [("dep", 1)] else []⟩

/-- Only the concrete type `0` is registered; the capability `1` is not. -/
def stSelf : State := register_component envSelf initState 0 Scope.singleton false

end SpringDI

namespace SpringDI

-- Smoke checks.

example : st0 = ⟨[(0, ⟨Scope.singleton, false, none⟩)], [(0, [])], [], [], 0⟩ := rfl

example : get_bean env0 2 st0 0 [] = some (st0run, Except.ok 0) := rfl

/-! ## Association-list lemmas -/

theorem lookupConfig_none_iff (st : State) (ty : Ty) :
    lookupConfig st ty = none ↔ ty ∉ st.configs.map Prod.fst := by
  constructor
  · intro h hmem
    simp only [lookupConfig, Option.map_eq_none', List.find?_eq_none] at h
    obtain ⟨p, hp, hfst⟩ := List.mem_map.1 hmem
    exact h p hp (by simp [hfst])
  · intro h
    simp only [lookupConfig, Option.map_eq_none', List.find?_eq_none]
    intro p hp hb
    exact h (List.mem_map.2 ⟨p, hp, by simpa using hb⟩)

theorem mem_keys_of_find_implementations {env : Env} {st : State} {ty i : Ty}
    {rest : List Ty} (h : find_implementations env st ty = i :: rest) :
    i ∈ st.configs.map Prod.fst := by
  have hi : i ∈ find_implementations env st ty := by
    rw [h]; exact List.mem_cons_self _ _
  exact List.mem_of_mem_filter hi

theorem setInst_keys (cfgs : List (Ty × Config)) (ty : Ty) (i : Nat) :
    (setInst cfgs ty i).map Prod.fst = cfgs.map Prod.fst := by
  induction cfgs with
  | nil => rfl
  | cons a l ih =>
    show ((if a.1 == ty then (a.1, { a.2 with inst := some i }) else a) ::
      setInst l ty i).map Prod.fst = _
    by_cases hk : (a.1 == ty) = true
    · rw [if_pos hk]; simpa using ih
    · rw [if_neg hk]; simpa using ih

theorem setInst_id (cfgs : List (Ty × Config)) (ty : Ty) (i : Nat)
    (h : ty ∉ cfgs.map Prod.fst) : setInst cfgs ty i = cfgs := by
  induction cfgs with
  | nil => rfl
  | cons a l ih =>
    simp only [List.map_cons, List.mem_cons, not_or] at h
    have hk : ¬((a.1 == ty) = true) := by
      simp only [beq_iff_eq]
      intro hh; exact h.1 hh.symm
    show (if a.1 == ty then (a.1, { a.2 with inst := some i }) else a) ::
      setInst l ty i = a :: l
    rw [if_neg hk, ih h.2]

theorem find?_setInst (cfgs : List (Ty × Config)) (ty : Ty) (i : Nat) :
    (setInst cfgs ty i).find? (fun p => p.1 == ty) =
      (cfgs.find? (fun p => p.1 == ty)).map
        (fun p => (p.1, { p.2 with inst := some i })) := by
  induction cfgs with
  | nil => rfl
  | cons a l ih =>
    show List.find? (fun p => p.1 == ty)
      ((if a.1 == ty then (a.1, { a.2 with inst := some i }) else a) ::
        setInst l ty i) = _
    by_cases hk : (a.1 == ty) = true
    · rw [if_pos hk,
        List.find?_cons_of_pos (p := fun (x : Ty × Config) => x.1 == ty)
          (a := (a.1, { a.2 with inst := some i })) _ hk,
        List.find?_cons_of_pos (p := fun (x : Ty × Config) => x.1 == ty) _ hk]
      rfl
    · rw [if_neg hk,
        List.find?_cons_of_neg (p := fun (x : Ty × Config) => x.1 == ty) _ hk,
        List.find?_cons_of_neg (p := fun (x : Ty × Config) => x.1 == ty) _ hk]
      exact ih

/-! ## `Forall₂` algebra for the frame relations -/

theorem forall₂_keyScope_refl : ∀ l : List (Ty × Config), List.Forall₂ KeyScope l l
  | [] => List.Forall₂.nil
  | _ :: l => List.Forall₂.cons ⟨rfl, rfl, rfl⟩ (forall₂_keyScope_refl l)

theorem forall₂_protoStep_refl : ∀ l : List (Ty × Config), List.Forall₂ ProtoStep l l
  | [] => List.Forall₂.nil
  | _ :: l =>
    List.Forall₂.cons ⟨⟨rfl, rfl, rfl⟩, fun _ => rfl⟩ (forall₂_protoStep_refl l)

theorem forall₂_keyScope_trans {a b c : List (Ty × Config)}
    (h1 : List.Forall₂ KeyScope a b) (h2 : List.Forall₂ KeyScope b c) :
    List.Forall₂ KeyScope a c := by
  induction h1 generalizing c with
  | nil => cases h2; exact List.Forall₂.nil
  | cons hpq _ ih =>
    cases h2 with
    | cons hqr h2 =>
      exact List.Forall₂.cons
        ⟨hqr.1.trans hpq.1, hqr.2.1.trans hpq.2.1, hqr.2.2.trans hpq.2.2⟩ (ih h2)

theorem forall₂_protoStep_trans {a b c : List (Ty × Config)}
    (h1 : List.Forall₂ ProtoStep a b) (h2 : List.Forall₂ ProtoStep b c) :
    List.Forall₂ ProtoStep a c := by
  induction h1 generalizing c with
  | nil => cases h2; exact List.Forall₂.nil
  | cons hpq _ ih =>
    cases h2 with
    | cons hqr h2 =>
      refine List.Forall₂.cons
        ⟨⟨hqr.1.1.trans hpq.1.1, hqr.1.2.1.trans hpq.1.2.1,
          hqr.1.2.2.trans hpq.1.2.2⟩, fun hp => ?_⟩ (ih h2)
      exact (hqr.2 (by rw [hpq.1.2.1, hp])).trans (hpq.2 hp)

theorem forall₂_keyScope_of_protoStep {a b : List (Ty × Config)}
    (h : List.Forall₂ ProtoStep a b) : List.Forall₂ KeyScope a b :=
  h.imp (fun _ _ hp => hp.1)

theorem forall₂_keyScope_keys {a b : List (Ty × Config)}
    (h : List.Forall₂ KeyScope a b) : b.map Prod.fst = a.map Prod.fst := by
  induction h with
  | nil => rfl
  | cons hpq _ ih => simp [ih, hpq.1]

theorem forall₂_keyScope_lookup {a b : List (Ty × Config)}
    (h : List.Forall₂ KeyScope a b) (ty : Ty) (c : Config)
    (hc : (a.find? (fun p => p.1 == ty)).map (·.2) = some c) :
    ∃ c', (b.find? (fun p => p.1 == ty)).map (·.2) = some c' ∧
      c'.scope = c.scope ∧ c'.primary = c.primary := by
  induction h with
  | nil => simp at hc
  | @cons p q l1 l2 hpq _ ih =>
    by_cases hk : (p.1 == ty) = true
    · rw [List.find?_cons_of_pos (p := fun (x : Ty × Config) => x.1 == ty) _ hk] at hc
      simp only [Option.map_some', Option.some.injEq] at hc
      rw [List.find?_cons_of_pos (p := fun (x : Ty × Config) => x.1 == ty) _
        (show (q.1 == ty) = true by rw [hpq.1]; exact hk)]
      exact ⟨q.2, by simp, by rw [hpq.2.1, hc], by rw [hpq.2.2, hc]⟩
    · rw [List.find?_cons_of_neg (p := fun (x : Ty × Config) => x.1 == ty) _ hk] at hc
      rw [List.find?_cons_of_neg (p := fun (x : Ty × Config) => x.1 == ty) _
        (show ¬((q.1 == ty) = true) by rw [hpq.1]; exact hk)]
      exact ih hc

theorem forall₂_protoStep_lookup {a b : List (Ty × Config)}
    (h : List.Forall₂ ProtoStep a b) (ty : Ty) (c : Config)
    (hc : (a.find? (fun p => p.1 == ty)).map (·.2) = some c)
    (hproto : c.scope = Scope.prototype) :
    (b.find? (fun p => p.1 == ty)).map (·.2) = some c := by
  induction h with
  | nil => simp at hc
  | @cons p q l1 l2 hpq _ ih =>
    by_cases hk : (p.1 == ty) = true
    · rw [List.find?_cons_of_pos (p := fun (x : Ty × Config) => x.1 == ty) _ hk] at hc
      simp only [Option.map_some', Option.some.injEq] at hc
      rw [List.find?_cons_of_pos (p := fun (x : Ty × Config) => x.1 == ty) _
        (show (q.1 == ty) = true by rw [hpq.1.1]; exact hk)]
      simp only [Option.map_some', Option.some.injEq]
      have hinst : q.2.inst = p.2.inst := hpq.2 (by rw [hc, hproto])
      have hscope : q.2.scope = p.2.scope := hpq.1.2.1
      have hprim : q.2.primary = p.2.primary := hpq.1.2.2
      rw [← hc]
      cases hq : q.2 with
      | mk qs qp qi =>
        rw [hq] at hscope hprim hinst
        cases hp : p.2 with
        | mk ps pp pi =>
          rw [hp] at hscope hprim hinst
          simp only [Config.mk.injEq]
          exact ⟨hscope, hprim, hinst⟩
    · rw [List.find?_cons_of_neg (p := fun (x : Ty × Config) => x.1 == ty) _ hk] at hc
      rw [List.find?_cons_of_neg (p := fun (x : Ty × Config) => x.1 == ty) _
        (show ¬((q.1 == ty) = true) by rw [hpq.1.1]; exact hk)]
      exact ih hc

theorem forall₂_keyScope_setInst (cfgs : List (Ty × Config)) (ty : Ty) (i : Nat) :
    List.Forall₂ KeyScope cfgs (setInst cfgs ty i) := by
  induction cfgs with
  | nil => exact List.Forall₂.nil
  | cons a l ih =>
    refine List.Forall₂.cons ?_ ih
    by_cases hk : (a.1 == ty) = true <;> simp [KeyScope, hk]

theorem forall₂_protoStep_setInst (cfgs : List (Ty × Config)) (ty : Ty) (i : Nat)
    (hnd : (cfgs.map Prod.fst).Nodup) (c : Config)
    (hc : (cfgs.find? (fun p => p.1 == ty)).map (·.2) = some c)
    (hs : c.scope = Scope.singleton) :
    List.Forall₂ ProtoStep cfgs (setInst cfgs ty i) := by
  induction cfgs with
  | nil => exact List.Forall₂.nil
  | cons a l ih =>
    simp only [List.map_cons, List.nodup_cons] at hnd
    by_cases hk : (a.1 == ty) = true
    · rw [List.find?_cons_of_pos (p := fun (x : Ty × Config) => x.1 == ty) _ hk] at hc
      simp only [Option.map_some', Option.some.injEq] at hc
      have hae : a.1 = ty := by simpa using hk
      have hl : setInst l ty i = l := setInst_id l ty i (hae ▸ hnd.1)
      show List.Forall₂ ProtoStep (a :: l)
        ((if a.1 == ty then (a.1, { a.2 with inst := some i }) else a) ::
          setInst l ty i)
      rw [if_pos hk, hl]
      refine List.Forall₂.cons ⟨⟨rfl, rfl, rfl⟩, fun hp => ?_⟩
        (forall₂_protoStep_refl l)
      rw [hc, hs] at hp
      cases hp
    · rw [List.find?_cons_of_neg (p := fun (x : Ty × Config) => x.1 == ty) _ hk] at hc
      show List.Forall₂ ProtoStep (a :: l)
        ((if a.1 == ty then (a.1, { a.2 with inst := some i }) else a) ::
          setInst l ty i)
      rw [if_neg hk]
      exact List.Forall₂.cons ⟨⟨rfl, rfl, rfl⟩, fun _ => rfl⟩ (ih hnd.2 hc)

/-! ## The frame relations and the operations -/

theorem frames_refl (st : State) : frames st st :=
  ⟨forall₂_keyScope_refl _, rfl, le_refl _⟩

theorem frames_trans {s1 s2 s3 : State} (h1 : frames s1 s2) (h2 : frames s2 s3) :
    frames s1 s3 :=
  ⟨forall₂_keyScope_trans h1.1 h2.1, h2.2.1.trans h1.2.1, le_trans h1.2.2 h2.2.2⟩

theorem frames_keys {s1 s2 : State} (h : frames s1 s2) :
    s2.configs.map Prod.fst = s1.configs.map Prod.fst :=
  forall₂_keyScope_keys h.1

theorem frames_lookup {s1 s2 : State} (h : frames s1 s2) {ty : Ty} {c : Config}
    (hc : lookupConfig s1 ty = some c) :
    ∃ c', lookupConfig s2 ty = some c' ∧ c'.scope = c.scope ∧
      c'.primary = c.primary :=
  forall₂_keyScope_lookup h.1 ty c hc

theorem protoFrames_refl (st : State) : protoFrames st st :=
  forall₂_protoStep_refl _

theorem protoFrames_trans {s1 s2 s3 : State} (h1 : protoFrames s1 s2)
    (h2 : protoFrames s2 s3) : protoFrames s1 s3 :=
  forall₂_protoStep_trans h1 h2

theorem construct_frames (env : Env) (st : State) (ty : Ty)
    (args : List (String × Nat)) : frames st (construct env st ty args).1 := by
  unfold construct
  split
  · exact ⟨forall₂_keyScope_refl _, rfl, Nat.le_succ _⟩
  · exact frames_refl st

theorem construct_proto (env : Env) (st : State) (ty : Ty)
    (args : List (String × Nat)) : protoFrames st (construct env st ty args).1 := by
  unfold construct
  split
  · exact forall₂_protoStep_refl _
  · exact protoFrames_refl st

theorem frames_bumpMetrics (st : State) (ty : Ty) : frames st (bumpMetrics st ty) :=
  ⟨forall₂_keyScope_refl _, rfl, le_refl _⟩

/-! ## Resolution preserves the frame relations -/

theorem resolve_deps_frames (gb : State → Ty → List Ty → Res)
    (hgb : ∀ st ty path st' r, gb st ty path = some (st', r) → frames st st') :
    ∀ (deps : List (String × Ty)) (st : State) (path : List Ty) (st' : State)
      (r : Except DIErr (List (String × Nat))),
      resolve_deps gb st deps path = some (st', r) → frames st st' := by
  intro deps
  induction deps with
  | nil =>
    intro st path st' r h
    simp only [resolve_deps] at h
    cases h
    exact frames_refl st
  | cons d rest ih =>
    obtain ⟨n, t⟩ := d
    intro st path st' r h
    simp only [resolve_deps] at h
    split at h
    · exact Option.noConfusion h
    · rename_i heq
      cases h
      exact hgb _ _ _ _ _ heq
    · rename_i st1 i heq
      split at h
      · exact Option.noConfusion h
      · rename_i heq2
        cases h
        exact frames_trans (hgb _ _ _ _ _ heq) (ih st1 path _ _ heq2)
      · rename_i st2 args heq2
        cases h
        exact frames_trans (hgb _ _ _ _ _ heq) (ih st1 path _ _ heq2)

theorem create_instance_frames (env : Env) (gb : State → Ty → List Ty → Res)
    (hgb : ∀ st ty path st' r, gb st ty path = some (st', r) → frames st st') :
    ∀ (st : State) (ty : Ty) (path : List Ty) (st' : State) (r : Except DIErr Nat),
      create_instance env gb st ty path = some (st', r) → frames st st' := by
  intro st ty path st' r h
  unfold create_instance at h
  split at h
  · injection h with h2
    have hf := construct_frames env st ty []
    rw [h2] at hf
    exact hf
  · split at h
    · exact Option.noConfusion h
    · rename_i heq
      cases h
      exact resolve_deps_frames gb hgb _ _ _ _ _ heq
    · rename_i st1 args heq
      injection h with h2
      have hf := construct_frames env st1 ty args
      rw [h2] at hf
      exact frames_trans (resolve_deps_frames gb hgb _ _ _ _ _ heq) hf

theorem run_resolved_frames (env : Env) (gb : State → Ty → List Ty → Res)
    (hgb : ∀ st ty path st' r, gb st ty path = some (st', r) → frames st st')
    (st : State) (t2 : Ty) (config : Config) (path : List Ty) (st' : State)
    (r : Except DIErr Nat)
    (h : run_resolved env gb st t2 config path = some (st', r)) : frames st st' := by
  unfold run_resolved at h
  split at h
  · cases h
    exact frames_refl st
  · split at h
    · exact Option.noConfusion h
    · rename_i heq
      cases h
      exact create_instance_frames env gb hgb _ _ _ _ _ heq
    · rename_i st1 i heq
      have hf : frames st st1 := create_instance_frames env gb hgb _ _ _ _ _ heq
      split at h
      · cases h
        refine frames_trans (frames_trans hf ?_) (frames_bumpMetrics _ _)
        exact ⟨forall₂_keyScope_setInst _ _ _, rfl, le_refl _⟩
      · cases h
        exact frames_trans hf (frames_bumpMetrics _ _)

theorem get_bean_frames (env : Env) :
    ∀ (f : Nat) (st : State) (ty : Ty) (path : List Ty) (st' : State)
      (r : Except DIErr Nat),
      get_bean env f st ty path = some (st', r) → frames st st' := by
  intro f
  induction f with
  | zero =>
    intro st ty path st' r h
    exact Option.noConfusion h
  | succ f ih =>
    intro st ty path st' r h
    simp only [get_bean] at h
    unfold get_bean_body at h
    split at h
    · cases h
      exact frames_refl st
    · split at h
      · cases h
        exact frames_refl st
      · exact run_resolved_frames env (get_bean env f) ih _ _ _ _ _ _ h

/-! ## `resolve_hit` inversion -/

theorem resolve_hit_lookup (env : Env) (st : State) (ty t2 : Ty) (c : Config)
    (h : resolve_hit env st ty = (t2, some c)) : lookupConfig st t2 = some c := by
  unfold resolve_hit at h
  split at h
  · rename_i c0 heq
    injection h with h1 h2
    injection h2 with h2
    subst h1
    rw [heq, h2]
  · rename_i heq
    split at h
    · exact Option.noConfusion (congrArg Prod.snd h)
    · rename_i impl rest heq2
      injection h with h1 h2
      rw [← h1]
      exact h2

theorem resolve_hit_notFound (env : Env) (st : State) (ty t2 : Ty)
    (h : resolve_hit env st ty = (t2, none)) :
    t2 = ty ∧ lookupConfig st ty = none ∧ find_implementations env st ty = [] := by
  unfold resolve_hit at h
  split at h
  · exact Option.noConfusion (congrArg Prod.snd h)
  · rename_i heq
    split at h
    · rename_i heq2
      injection h with h1 _
      exact ⟨h1.symm, heq, heq2⟩
    · rename_i impl rest heq2
      injection h with h1 h2
      have hmem := mem_keys_of_find_implementations heq2
      rw [lookupConfig_none_iff] at h2
      exact absurd hmem h2

/-! ## Resolution never touches prototype descriptors -/

theorem resolve_deps_proto (gb : State → Ty → List Ty → Res)
    (hgbF : ∀ st ty path st' r, gb st ty path = some (st', r) → frames st st')
    (hgbP : ∀ st ty path st' r, (st.configs.map Prod.fst).Nodup →
      gb st ty path = some (st', r) → protoFrames st st') :
    ∀ (deps : List (String × Ty)) (st : State) (path : List Ty) (st' : State)
      (r : Except DIErr (List (String × Nat))),
      (st.configs.map Prod.fst).Nodup →
      resolve_deps gb st deps path = some (st', r) → protoFrames st st' := by
  intro deps
  induction deps with
  | nil =>
    intro st path st' r _ h
    simp only [resolve_deps] at h
    cases h
    exact protoFrames_refl st
  | cons d rest ih =>
    obtain ⟨n, t⟩ := d
    intro st path st' r hnd h
    simp only [resolve_deps] at h
    split at h
    · exact Option.noConfusion h
    · rename_i heq
      cases h
      exact hgbP _ _ _ _ _ hnd heq
    · rename_i st1 i heq
      have hnd1 : (st1.configs.map Prod.fst).Nodup := by
        rw [frames_keys (hgbF _ _ _ _ _ heq)]; exact hnd
      split at h
      · exact Option.noConfusion h
      · rename_i heq2
        cases h
        exact protoFrames_trans (hgbP _ _ _ _ _ hnd heq) (ih st1 path _ _ hnd1 heq2)
      · rename_i st2 args heq2
        cases h
        exact protoFrames_trans (hgbP _ _ _ _ _ hnd heq) (ih st1 path _ _ hnd1 heq2)

theorem create_instance_proto (env : Env) (gb : State → Ty → List Ty → Res)
    (hgbF : ∀ st ty path st' r, gb st ty path = some (st', r) → frames st st')
    (hgbP : ∀ st ty path st' r, (st.configs.map Prod.fst).Nodup →
      gb st ty path = some (st', r) → protoFrames st st') :
    ∀ (st : State) (ty : Ty) (path : List Ty) (st' : State) (r : Except DIErr Nat),
      (st.configs.map Prod.fst).Nodup →
      create_instance env gb st ty path = some (st', r) → protoFrames st st' := by
  intro st ty path st' r hnd h
  unfold create_instance at h
  split at h
  · injection h with h2
    have hp := construct_proto env st ty []
    rw [h2] at hp
    exact hp
  · split at h
    · exact Option.noConfusion h
    · rename_i heq
      cases h
      exact resolve_deps_proto gb hgbF hgbP _ _ _ _ _ hnd heq
    · rename_i st1 args heq
      injection h with h2
      have hp := construct_proto env st1 ty args
      rw [h2] at hp
      exact protoFrames_trans
        (resolve_deps_proto gb hgbF hgbP _ _ _ _ _ hnd heq) hp

theorem run_resolved_proto (env : Env) (gb : State → Ty → List Ty → Res)
    (hgbF : ∀ st ty path st' r, gb st ty path = some (st', r) → frames st st')
    (hgbP : ∀ st ty path st' r, (st.configs.map Prod.fst).Nodup →
      gb st ty path = some (st', r) → protoFrames st st')
    (st : State) (t2 : Ty) (config : Config) (path : List Ty) (st' : State)
    (r : Except DIErr Nat)
    (hnd : (st.configs.map Prod.fst).Nodup)
    (hc : lookupConfig st t2 = some config)
    (h : run_resolved env gb st t2 config path = some (st', r)) :
    protoFrames st st' := by
  unfold run_resolved at h
  split at h
  · cases h
    exact protoFrames_refl st
  · split at h
    · exact Option.noConfusion h
    · rename_i heq
      cases h
      exact create_instance_proto env gb hgbF hgbP _ _ _ _ _ hnd heq
    · rename_i st1 i heq
      have hF : frames st st1 := create_instance_frames env gb hgbF _ _ _ _ _ heq
      have hP : protoFrames st st1 :=
        create_instance_proto env gb hgbF hgbP _ _ _ _ _ hnd heq
      split at h
      · rename_i hs
        cases h
        have hseq : config.scope = Scope.singleton := by simpa using hs
        obtain ⟨c1, hc1, hsc1, _⟩ := frames_lookup hF hc
        have hnd1 : (st1.configs.map Prod.fst).Nodup := by
          rw [frames_keys hF]; exact hnd
        have hstep : List.Forall₂ ProtoStep st1.configs (setInst st1.configs t2 i) :=
          forall₂_protoStep_setInst st1.configs t2 i hnd1 c1 hc1
            (by rw [hsc1, hseq])
        exact protoFrames_trans hP hstep
      · cases h
        exact hP

theorem get_bean_proto (env : Env) :
    ∀ (f : Nat) (st : State) (ty : Ty) (path : List Ty) (st' : State)
      (r : Except DIErr Nat),
      (st.configs.map Prod.fst).Nodup →
      get_bean env f st ty path = some (st', r) → protoFrames st st' := by
  intro f
  induction f with
  | zero =>
    intro st ty path st' r _ h
    exact Option.noConfusion h
  | succ f ih =>
    intro st ty path st' r hnd h
    simp only [get_bean] at h
    unfold get_bean_body at h
    split at h
    · cases h
      exact protoFrames_refl st
    · split at h
      · cases h
        exact protoFrames_refl st
      · rename_i t2 config heq
        exact run_resolved_proto env (get_bean env f) (get_bean_frames env f) ih
          _ _ _ _ _ _ hnd (resolve_hit_lookup env st ty t2 config heq) h

/-! ## Behaviour lemmas for the resolver -/

theorem resolve_hit_of_lookup (env : Env) (st : State) (ty : Ty) (c : Config)
    (hc : lookupConfig st ty = some c) : resolve_hit env st ty = (ty, some c) := by
  unfold resolve_hit
  rw [hc]

theorem lookupConfig_some_elim {st : State} {ty : Ty} {c : Config}
    (hc : lookupConfig st ty = some c) :
    ∃ p, st.configs.find? (fun q => q.1 == ty) = some p ∧ p.1 = ty ∧ p.2 = c := by
  unfold lookupConfig at hc
  cases hf : st.configs.find? (fun q => q.1 == ty) with
  | none => rw [hf] at hc; exact Option.noConfusion hc
  | some p =>
    rw [hf] at hc
    refine ⟨p, rfl, ?_, by simpa using hc⟩
    simpa using List.find?_some hf

/-- The cached-singleton fast path: a published singleton is returned
as-is, with no state change at all (in particular no metrics update). -/
theorem get_bean_cached (env : Env) (f : Nat) (st : State) (T : Ty)
    (config : Config) (i : Nat) (hc : lookupConfig st T = some config)
    (hs : config.scope = Scope.singleton) (hi : config.inst = some i) :
    get_bean env (f + 1) st T [] = some (st, Except.ok i) := by
  simp only [get_bean]
  unfold get_bean_body
  rw [if_neg (by simp)]
  rw [resolve_hit_of_lookup env st T config hc]
  unfold run_resolved
  simp [hs, hi]

/-- A successful `get_bean` on a singleton-registered type leaves that
type's descriptor holding exactly the returned instance. -/
theorem run_resolved_singleton_publish (env : Env) (gb : State → Ty → List Ty → Res)
    (hgb : ∀ st ty path st' r, gb st ty path = some (st', r) → frames st st')
    (st : State) (T : Ty) (config : Config) (path : List Ty) (st' : State) (i : Nat)
    (hc : lookupConfig st T = some config) (hs : config.scope = Scope.singleton)
    (h : run_resolved env gb st T config path = some (st', Except.ok i)) :
    lookupConfig st' T = some ⟨Scope.singleton, config.primary, some i⟩ := by
  unfold run_resolved at h
  split at h
  · rename_i i0 hsc hin
    cases h
    rw [hc]
    congr 1
    cases config with
    | mk cs cp ci => simp_all
  · split at h
    · exact Option.noConfusion h
    · simp at h
    · rename_i st1 i0 heq
      split at h
      · cases h
        have hF : frames st st1 := create_instance_frames env gb hgb _ _ _ _ _ heq
        obtain ⟨c1, hc1, hsc1, hpr1⟩ := frames_lookup hF hc
        obtain ⟨p, hp, hpk, hpv⟩ := lookupConfig_some_elim hc1
        unfold lookupConfig bumpMetrics
        simp only
        rw [find?_setInst, hp]
        simp only [Option.map_some', Option.some.injEq]
        rw [hpv]
        cases c1 with
        | mk cs cp ci => simp_all
      · rename_i hs'
        rw [hs] at hs'
        simp at hs'

theorem get_bean_singleton_publish (env : Env) (f : Nat) (st : State) (T : Ty)
    (config : Config) (st' : State) (i : Nat)
    (hc : lookupConfig st T = some config) (hs : config.scope = Scope.singleton)
    (h : get_bean env f st T [] = some (st', Except.ok i)) :
    lookupConfig st' T = some ⟨Scope.singleton, config.primary, some i⟩ := by
  cases f with
  | zero => exact Option.noConfusion h
  | succ f =>
    simp only [get_bean] at h
    unfold get_bean_body at h
    rw [if_neg (by simp)] at h
    split at h
    · rename_i t2 heq
      rw [resolve_hit_of_lookup env st T config hc] at heq
      exact Option.noConfusion (congrArg Prod.snd heq)
    · rename_i t2 config2 heq
      rw [resolve_hit_of_lookup env st T config hc] at heq
      injection heq with h1 h2
      injection h2 with h2
      subst h1
      subst h2
      exact run_resolved_singleton_publish env (get_bean env f)
        (get_bean_frames env f) st T config [] st' i hc hs h

/-- A successful construction allocates a fresh instance identifier. -/
theorem create_instance_fresh (env : Env) (gb : State → Ty → List Ty → Res)
    (hgb : ∀ st ty path st' r, gb st ty path = some (st', r) → frames st st')
    (st : State) (ty : Ty) (path : List Ty) (st' : State) (i : Nat)
    (h : create_instance env gb st ty path = some (st', Except.ok i)) :
    st.nextId ≤ i ∧ st'.nextId = i + 1 := by
  unfold create_instance at h
  split at h
  · injection h with h2
    unfold construct at h2
    split at h2
    · injection h2 with ha hb
      injection hb with hb
      subst hb
      rw [← ha]
      exact ⟨le_refl _, rfl⟩
    · exact absurd (congrArg Prod.snd h2) (by simp)
  · split at h
    · exact Option.noConfusion h
    · simp at h
    · rename_i st1 args heq
      injection h with h2
      unfold construct at h2
      split at h2
      · injection h2 with ha hb
        injection hb with hb
        subst hb
        rw [← ha]
        exact ⟨(resolve_deps_frames gb hgb _ _ _ _ _ heq).2.2, rfl⟩
      · exact absurd (congrArg Prod.snd h2) (by simp)

/-- A `get_bean` on a prototype-registered type always constructs a fresh
instance and leaves the descriptor untouched. -/
theorem get_bean_prototype_run (env : Env) (f : Nat) (st : State) (T : Ty)
    (config : Config) (st' : State) (i : Nat)
    (hnd : (st.configs.map Prod.fst).Nodup)
    (hc : lookupConfig st T = some config) (hs : config.scope = Scope.prototype)
    (h : get_bean env f st T [] = some (st', Except.ok i)) :
    st.nextId ≤ i ∧ st'.nextId = i + 1 ∧ lookupConfig st' T = some config ∧
      (st'.configs.map Prod.fst).Nodup := by
  cases f with
  | zero => exact Option.noConfusion h
  | succ f =>
    simp only [get_bean] at h
    unfold get_bean_body at h
    rw [if_neg (by simp)] at h
    split at h
    · rename_i t2 heq
      rw [resolve_hit_of_lookup env st T config hc] at heq
      exact Option.noConfusion (congrArg Prod.snd heq)
    · rename_i t2 config2 heq
      rw [resolve_hit_of_lookup env st T config hc] at heq
      injection heq with h1 h2
      injection h2 with h2
      subst h1
      subst h2
      unfold run_resolved at h
      split at h
      · rename_i i0 hsc hin
        rw [hs] at hsc
        exact Scope.noConfusion hsc
      · split at h
        · exact Option.noConfusion h
        · simp at h
        · rename_i st1 i0 heqc
          have hF : frames st st1 :=
            create_instance_frames env (get_bean env f) (get_bean_frames env f)
              _ _ _ _ _ heqc
          have hP : protoFrames st st1 :=
            create_instance_proto env (get_bean env f) (get_bean_frames env f)
              (get_bean_proto env f) _ _ _ _ _ hnd heqc
          have hfresh := create_instance_fresh env (get_bean env f)
            (get_bean_frames env f) _ _ _ _ _ heqc
          split at h
          · rename_i hs'
            rw [hs] at hs'
            simp at hs'
          · cases h
            obtain ⟨p, hp, hpk, hpv⟩ := lookupConfig_some_elim hc
            refine ⟨hfresh.1, hfresh.2, ?_, ?_⟩
            · show ((st1.configs.find? (fun q => q.1 == T)).map (·.2)) = some config
              have := forall₂_protoStep_lookup hP T config
                (by unfold lookupConfig at hc; exact hc) hs
              exact this
            · show (st1.configs.map Prod.fst).Nodup
              rw [frames_keys hF]
              exact hnd

/-! ## Claim theorems -/

/-- **C1** — Singleton identity and stability: for a type with a
singleton registration, two successive `get_bean` calls return the same
instance identifier and the second call leaves the state untouched; and
once the singleton instance is published in the descriptor, every later
`get_bean` returns exactly that instance with no state change. -/
theorem claim1_singleton_identity (env : Env) :
    (∀ (f1 f2 : Nat) (st : State) (T : Ty) (config : Config) (st1 : State)
        (i1 : Nat) (st2 : State) (i2 : Nat),
        lookupConfig st T = some config → config.scope = Scope.singleton →
        get_bean env f1 st T [] = some (st1, Except.ok i1) →
        get_bean env f2 st1 T [] = some (st2, Except.ok i2) →
        i2 = i1 ∧ st2 = st1)
  ∧ (∀ (f : Nat) (st : State) (T : Ty) (config : Config) (i : Nat),
        lookupConfig st T = some config → config.scope = Scope.singleton →
        config.inst = some i →
        get_bean env (f + 1) st T [] = some (st, Except.ok i)) := by
  constructor
  · intro f1 f2 st T config st1 i1 st2 i2 hc hs h1 h2
    have hp := get_bean_singleton_publish env f1 st T config st1 i1 hc hs h1
    cases f2 with
    | zero => exact Option.noConfusion h2
    | succ g =>
      rw [get_bean_cached env g st1 T ⟨Scope.singleton, config.primary, some i1⟩
        i1 hp rfl rfl] at h2
      injection h2 with hpair
      injection hpair with ha hb
      injection hb with hb
      exact ⟨hb.symm, ha.symm⟩
  · intro f st T config i hc hs hi
    exact get_bean_cached env f st T config i hc hs hi

/-- Witness for C1 at the concrete one-singleton registry `st0`. -/
theorem claim1_singleton_identity_witness :
    lookupConfig st0 0 = some ⟨Scope.singleton, false, none⟩ ∧
    get_bean env0 2 st0 0 [] = some (st0run, Except.ok 0) ∧
    get_bean env0 1 st0run 0 [] = some (st0run, Except.ok 0) ∧
    ((0 : Nat) = 0 ∧ st0run = st0run) :=
  ⟨rfl, rfl,
    (claim1_singleton_identity env0).2 0 st0run 0
      ⟨Scope.singleton, false, some 0⟩ 0 rfl rfl rfl,
    (claim1_singleton_identity env0).1 2 1 st0 0 ⟨Scope.singleton, false, none⟩
      st0run 0 st0run 0 rfl rfl rfl rfl⟩

/-- **C2** — Cycle rejection before construction: whenever the requested
type already appears in the current creation path, `get_bean` raises
`CircularDependencyError` carrying the path extended with the repeated
type, and the state is returned untouched — in particular no constructor
runs (the allocation counter and metrics are unchanged). -/
theorem claim2_cycle_rejection (env : Env) (f : Nat) (st : State) (ty : Ty)
    (path : List Ty) (h : ty ∈ path) :
    get_bean env (f + 1) st ty path =
      some (st, Except.error (DIErr.circular (path ++ [ty]))) := by
  simp only [get_bean]
  unfold get_bean_body
  rw [if_pos h]

/-- Witness for C2: requesting `0` with `0` already on the path. -/
theorem claim2_cycle_rejection_witness :
    (0 : Ty) ∈ [(0 : Ty)] ∧
    get_bean env0 1 st0 0 [0] =
      some (st0, Except.error (DIErr.circular [0, 0])) :=
  ⟨List.mem_cons_self _ _,
   claim2_cycle_rejection env0 0 st0 0 [0] (List.mem_cons_self _ _)⟩

/-- **C7** — Prototype independence: two successful `get_bean` calls on a
prototype-registered type return distinct instance identifiers (distinct
objects, so mutating one cannot affect the other), and the container
never caches a prototype result: the descriptor is byte-for-byte
unchanged after both calls. -/
theorem claim7_prototype_independence (env : Env) :
    ∀ (f1 f2 : Nat) (st : State) (T : Ty) (config : Config) (st1 : State)
      (i1 : Nat) (st2 : State) (i2 : Nat),
      (st.configs.map Prod.fst).Nodup →
      lookupConfig st T = some config → config.scope = Scope.prototype →
      get_bean env f1 st T [] = some (st1, Except.ok i1) →
      get_bean env f2 st1 T [] = some (st2, Except.ok i2) →
      i1 ≠ i2 ∧ lookupConfig st1 T = some config ∧
        lookupConfig st2 T = some config := by
  intro f1 f2 st T config st1 i1 st2 i2 hnd hc hs h1 h2
  obtain ⟨hle1, hnx1, hl1, hnd1⟩ :=
    get_bean_prototype_run env f1 st T config st1 i1 hnd hc hs h1
  obtain ⟨hle2, hnx2, hl2, hnd2⟩ :=
    get_bean_prototype_run env f2 st1 T config st2 i2 hnd1 hl1 hs h2
  refine ⟨?_, hl1, hl2⟩
  omega

/-- Witness for C7 at the concrete one-prototype registry `stProto`. -/
theorem claim7_prototype_independence_witness :
    (stProto.configs.map Prod.fst).Nodup ∧
    get_bean env0 2 stProto 0 [] = some (stProto1, Except.ok 0) ∧
    get_bean env0 2 stProto1 0 [] = some (stProto2, Except.ok 1) ∧
    ((0 : Nat) ≠ 1 ∧ lookupConfig stProto1 0 = some ⟨Scope.prototype, false, none⟩ ∧
      lookupConfig stProto2 0 = some ⟨Scope.prototype, false, none⟩) :=
  ⟨by decide, rfl, rfl,
   claim7_prototype_independence env0 2 2 stProto 0 ⟨Scope.prototype, false, none⟩
     stProto1 0 stProto2 1 (by decide) rfl rfl rfl rfl⟩

/-! ## `BeanNotFoundError` characterization (C5) -/

theorem resolve_deps_notFound (env : Env) (gb : State → Ty → List Ty → Res)
    (hgbF : ∀ st ty path st' r, gb st ty path = some (st', r) → frames st st')
    (hgbN : ∀ st ty path st' t, gb st ty path =
        some (st', Except.error (DIErr.beanNotFound t)) →
      lookupConfig st t = none ∧ find_implementations env st t = []) :
    ∀ (deps : List (String × Ty)) (st : State) (path : List Ty) (st' : State)
      (t : Ty),
      resolve_deps gb st deps path =
        some (st', Except.error (DIErr.beanNotFound t)) →
      lookupConfig st t = none ∧ find_implementations env st t = [] := by
  intro deps
  induction deps with
  | nil =>
    intro st path st' t h
    simp only [resolve_deps] at h
    simp at h
  | cons d rest ih =>
    obtain ⟨n, t0⟩ := d
    intro st path st' t h
    simp only [resolve_deps] at h
    split at h
    · exact Option.noConfusion h
    · rename_i heq
      cases h
      exact hgbN _ _ _ _ _ heq
    · rename_i st1 i heq
      have hF : frames st st1 := hgbF _ _ _ _ _ heq
      split at h
      · exact Option.noConfusion h
      · rename_i heq2
        cases h
        obtain ⟨hn, hi2⟩ := ih st1 path _ t heq2
        constructor
        · rw [lookupConfig_none_iff] at hn ⊢
          rw [← frames_keys hF]
          exact hn
        · have hsame : find_implementations env st t = find_implementations env st1 t := by
            unfold find_implementations
            rw [frames_keys hF]
          rw [hsame]
          exact hi2
      · rename_i st2 args heq2
        simp at h

theorem create_instance_notFound (env : Env) (gb : State → Ty → List Ty → Res)
    (hgbF : ∀ st ty path st' r, gb st ty path = some (st', r) → frames st st')
    (hgbN : ∀ st ty path st' t, gb st ty path =
        some (st', Except.error (DIErr.beanNotFound t)) →
      lookupConfig st t = none ∧ find_implementations env st t = []) :
    ∀ (st : State) (ty : Ty) (path : List Ty) (st' : State) (t : Ty),
      create_instance env gb st ty path =
        some (st', Except.error (DIErr.beanNotFound t)) →
      lookupConfig st t = none ∧ find_implementations env st t = [] := by
  intro st ty path st' t h
  unfold create_instance at h
  split at h
  · injection h with h2
    unfold construct at h2
    split at h2
    · exact absurd (congrArg Prod.snd h2) (by simp)
    · have h3 := congrArg Prod.snd h2
      simp at h3
  · split at h
    · exact Option.noConfusion h
    · rename_i heq
      cases h
      exact resolve_deps_notFound env gb hgbF hgbN _ _ _ _ _ heq
    · rename_i st1 args heq
      injection h with h2
      unfold construct at h2
      split at h2
      · exact absurd (congrArg Prod.snd h2) (by simp)
      · have h3 := congrArg Prod.snd h2
        simp at h3

theorem run_resolved_notFound (env : Env) (gb : State → Ty → List Ty → Res)
    (hgbF : ∀ st ty path st' r, gb st ty path = some (st', r) → frames st st')
    (hgbN : ∀ st ty path st' t, gb st ty path =
        some (st', Except.error (DIErr.beanNotFound t)) →
      lookupConfig st t = none ∧ find_implementations env st t = [])
    (st : State) (t2 : Ty) (config : Config) (path : List Ty) (st' : State)
    (t : Ty)
    (h : run_resolved env gb st t2 config path =
      some (st', Except.error (DIErr.beanNotFound t))) :
    lookupConfig st t = none ∧ find_implementations env st t = [] := by
  unfold run_resolved at h
  split at h
  · simp at h
  · split at h
    · exact Option.noConfusion h
    · rename_i heq
      cases h
      exact create_instance_notFound env gb hgbF hgbN _ _ _ _ _ heq
    · split at h <;> simp at h

theorem get_bean_notFound (env : Env) :
    ∀ (f : Nat) (st : State) (ty : Ty) (path : List Ty) (st' : State) (t : Ty),
      get_bean env f st ty path =
        some (st', Except.error (DIErr.beanNotFound t)) →
      lookupConfig st t = none ∧ find_implementations env st t = [] := by
  intro f
  induction f with
  | zero =>
    intro st ty path st' t h
    exact Option.noConfusion h
  | succ f ih =>
    intro st ty path st' t h
    simp only [get_bean] at h
    unfold get_bean_body at h
    split at h
    · simp at h
    · split at h
      · rename_i t2 heq
        obtain ⟨ht2, hnone, himp⟩ := resolve_hit_notFound env st ty t2 heq
        injection h with hpair
        injection hpair with h1 h2
        injection h2 with h2
        injection h2 with h2
        rw [← h2, ht2]
        exact ⟨hnone, himp⟩
      · exact run_resolved_notFound env (get_bean env f) (get_bean_frames env f)
          ih _ _ _ _ _ _ h

/-- **C5** — `BeanNotFound` semantics: (soundness) whenever any resolution
step fails with `BeanNotFoundError(t)`, the named type `t` has neither an
exact registration nor any capability implementation in the starting
state — so the error always names the missing type, never the requester;
and (completeness) a request for a type with no registration and no
implementation fails immediately with `BeanNotFound` naming that type,
leaving the state untouched. -/
theorem claim5_beanNotFound (env : Env) :
    (∀ (f : Nat) (st : State) (ty : Ty) (path : List Ty) (st' : State) (t : Ty),
        get_bean env f st ty path =
          some (st', Except.error (DIErr.beanNotFound t)) →
        lookupConfig st t = none ∧ find_implementations env st t = [])
  ∧ (∀ (f : Nat) (st : State) (ty : Ty) (path : List Ty),
        ty ∉ path → lookupConfig st ty = none →
        find_implementations env st ty = [] →
        get_bean env (f + 1) st ty path =
          some (st, Except.error (DIErr.beanNotFound ty))) := by
  constructor
  · exact get_bean_notFound env
  · intro f st ty path hp hnone himp
    simp only [get_bean]
    unfold get_bean_body
    rw [if_neg hp]
    have hhit : resolve_hit env st ty = (ty, none) := by
      unfold resolve_hit
      rw [hnone, himp]
    rw [hhit]

/-- Witness for C5: requesting the unknown type `5` in the registry `st0`. -/
theorem claim5_beanNotFound_witness :
    lookupConfig st0 5 = none ∧ find_implementations env0 st0 5 = [] ∧
    get_bean env0 1 st0 5 [] = some (st0, Except.error (DIErr.beanNotFound 5)) ∧
    (lookupConfig st0 5 = none ∧ find_implementations env0 st0 5 = []) :=
  ⟨rfl, rfl,
   (claim5_beanNotFound env0).2 0 st0 5 [] (by simp) rfl rfl,
   (claim5_beanNotFound env0).1 1 st0 5 [] st0 5
     ((claim5_beanNotFound env0).2 0 st0 5 [] (by simp) rfl rfl)⟩

/-! ## Divergence helpers (C9) -/

theorem run_resolved_of_create_none (env : Env) (gb : State → Ty → List Ty → Res)
    (st : State) (t2 : Ty) (config : Config) (path : List Ty)
    (hni : config.inst = none)
    (hcr : create_instance env gb st t2 (path ++ [t2]) = none) :
    run_resolved env gb st t2 config path = none := by
  unfold run_resolved
  split
  · rename_i i0 hsc hin
    rw [hni] at hin
    exact Option.noConfusion hin
  · rw [hcr]

theorem create_instance_of_dep_none (env : Env) (gb : State → Ty → List Ty → Res)
    (st : State) (ty : Ty) (path : List Ty) (n : String) (t : Ty)
    (rest : List (String × Ty)) (hdeps : cachedDeps st ty = (n, t) :: rest)
    (hgb : gb st t path = none) :
    create_instance env gb st ty path = none := by
  unfold create_instance
  rw [hdeps]
  rw [if_neg (by simp)]
  simp only [resolve_deps]
  rw [hgb]

theorem get_bean_succ_none (env : Env) (f : Nat) (st : State) (ty : Ty)
    (path : List Ty) (t2 : Ty) (config : Config)
    (hp : ty ∉ path) (hhit : resolve_hit env st ty = (t2, some config))
    (hrun : run_resolved env (get_bean env f) st t2 config path = none) :
    get_bean env (f + 1) st ty path = none := by
  simp only [get_bean]
  unfold get_bean_body
  rw [if_neg hp, hhit]
  exact hrun

/-- **C9** — Cycles routed through a capability are never detected: in
`stSelf` the concrete type `0` implements the unregistered capability `1`
and constructor-depends on `1`; the cycle check always tests the
requested capability type `1` before rebinding it to `0`, and the path
only ever accumulates `0`, so `get_bean(1)` neither raises
`CircularDependencyError` nor terminates — it exhausts every fuel. -/
theorem claim9_capability_cycle_diverges :
    ∀ f : Nat, get_bean envSelf f stSelf 1 [] = none := by
  have key : ∀ f : Nat, ∀ path : List Ty, (1 : Ty) ∉ path →
      get_bean envSelf f stSelf 1 path = none := by
    intro f
    induction f with
    | zero => intro path _; rfl
    | succ f ih =>
      intro path hp
      refine get_bean_succ_none envSelf f stSelf 1 path 0
        ⟨Scope.singleton, false, none⟩ hp rfl ?_
      refine run_resolved_of_create_none envSelf (get_bean envSelf f) stSelf 0
        ⟨Scope.singleton, false, none⟩ path rfl ?_
      refine create_instance_of_dep_none envSelf (get_bean envSelf f) stSelf 0
        (path ++ [0]) "dep" 1 [] rfl ?_
      exact ih (path ++ [0]) (by simp [hp])
  intro f
  exact key f [] (by simp)

/-- **C10** — Dependency maps are read from the cache, never recomputed:
after `clear_cache` (no re-registration), resolving any registered type
with declared constructor parameters and no published singleton invokes
the constructor with zero arguments, so the call fails with the
constructor's own `TypeError` — the dependencies are not re-analyzed. -/
theorem claim10_cleared_cache (env : Env) (f : Nat) (st : State) (T : Ty)
    (config : Config) (hc : lookupConfig st T = some config)
    (hi : config.inst = none) (hd : env.ctorParams T ≠ []) :
    get_bean env (f + 1) (clear_cache st) T [] =
      some (clear_cache st, Except.error (DIErr.typeError T)) := by
  simp only [get_bean]
  unfold get_bean_body
  rw [if_neg (by simp)]
  have hcl : lookupConfig (clear_cache st) T = some config := hc
  rw [resolve_hit_of_lookup env (clear_cache st) T config hcl]
  split
  · rename_i t2x heqx
    exact Option.noConfusion (congrArg Prod.snd heqx)
  · rename_i t2x cfgx heqx
    injection heqx with hT hcfg
    injection hcfg with hcfg
    subst hT
    subst hcfg
    unfold run_resolved
    split
    · rename_i i0 hsc hin
      rw [hi] at hin
      exact Option.noConfusion hin
    · have hcd : cachedDeps (clear_cache st) T = [] := rfl
      have hcr : create_instance env (get_bean env f) (clear_cache st) T
          ([] ++ [T]) = some (construct env (clear_cache st) T []) := by
        unfold create_instance
        rw [hcd]
        rfl
      have hbeq : (([] : List (String × Nat)).map Prod.fst ==
          (env.ctorParams T).map Prod.fst) = false := by
        cases hq : env.ctorParams T with
        | nil => exact absurd hq hd
        | cons a l => rfl
      have hcon : construct env (clear_cache st) T [] =
          (clear_cache st, Except.error (DIErr.typeError T)) := by
        unfold construct
        rw [hbeq]
        rfl
      rw [hcr, hcon]

/-- Witness for C10 on `stVal0`, where type `0` declares the dependency
`("b", 1)`. -/
theorem claim10_cleared_cache_witness :
    lookupConfig stVal0 0 = some ⟨Scope.singleton, false, none⟩ ∧
    envVal.ctorParams 0 = [("b", 1)] ∧
    get_bean envVal 1 (clear_cache stVal0) 0 [] =
      some (clear_cache stVal0, Except.error (DIErr.typeError 0)) :=
  ⟨rfl, rfl,
   claim10_cleared_cache envVal 0 stVal0 0 ⟨Scope.singleton, false, none⟩
     rfl rfl (by decide)⟩

/-- Counterexample to C3 as stated: in `stCap` the capability `2` has two
implementations and exactly one of them (`1`) is marked primary, yet
resolution selects and constructs `0` — the non-primary, first-registered
implementation — and raises no error. -/
theorem claim3_counterexample :
    get_bean envCap 5 stCap 2 [] = some (stCapRun, Except.ok 0) ∧
    creationCount stCapRun 0 = 1 ∧ creationCount stCapRun 1 = 0 ∧
    (lookupConfig stCap 1).map Config.primary = some true ∧
    (lookupConfig stCap 0).map Config.primary = some false :=
  ⟨rfl, rfl, rfl, rfl, rfl⟩

/-- **C3 (amended)** — Capability tie-break as implemented: when a
requested type has no exact registration but has implementations, the
resolver always rebinds to the *first* implementation in registration
order, regardless of any primary marks; resolution is then literally
resolution of that implementation.  No `AmbiguousCapability` error exists
in the code, and multiple primaries are not detected. -/
theorem claim3_first_implementation (env : Env) (f : Nat) (st : State)
    (ty : Ty) (path : List Ty) (i : Ty) (rest : List Ty)
    (h1 : ty ∉ path) (h2 : lookupConfig st ty = none)
    (h3 : find_implementations env st ty = i :: rest) (h4 : i ∉ path) :
    get_bean env (f + 1) st ty path = get_bean env (f + 1) st i path := by
  cases hl : lookupConfig st i with
  | none =>
    have hmem := mem_keys_of_find_implementations h3
    rw [lookupConfig_none_iff] at hl
    exact absurd hmem hl
  | some c =>
    simp only [get_bean]
    unfold get_bean_body
    rw [if_neg h1, if_neg h4]
    have hhit0 : resolve_hit env st ty = (i, lookupConfig st i) := by
      unfold resolve_hit
      rw [h2, h3]
    rw [hl] at hhit0
    rw [hhit0, resolve_hit_of_lookup env st i c hl]

/-- Witness for the amended C3 on `stCap`: resolving the capability `2`
is resolving its first implementation `0`. -/
theorem claim3_first_implementation_witness :
    ((2 : Ty) ∉ ([] : List Ty)) ∧ lookupConfig stCap 2 = none ∧
    find_implementations envCap stCap 2 = [0, 1] ∧
    get_bean envCap 3 stCap 2 [] = get_bean envCap 3 stCap 0 [] :=
  ⟨by simp, rfl, rfl,
   claim3_first_implementation envCap 2 stCap 2 [] 0 [1] (by simp) rfl rfl
     (by simp)⟩

/-- Counterexample to C6 as stated: `clear_cache` leaves the descriptor
table and the metrics untouched — here a published singleton descriptor
and a nonzero creation record survive the call — so the registry is not
emptied and the metrics are not reset. -/
theorem claim6_counterexample :
    (clear_cache st0run).configs = [(0, ⟨Scope.singleton, false, some 0⟩)] ∧
    (clear_cache st0run).configs ≠ [] ∧
    (clear_cache st0run).metrics = [(0, ⟨1, 1⟩)] ∧
    (clear_cache st0run).metrics ≠ [] := by
  refine ⟨rfl, by decide, rfl, by decide⟩

/-- **C6 (amended)** — `clear_cache` empties exactly the dependency cache
and the creation-order cache; the descriptor table, the metrics and the
allocation counter are unchanged. -/
theorem claim6_clear_cache (st : State) :
    (clear_cache st).depCache = [] ∧ (clear_cache st).creationOrderCache = [] ∧
    (clear_cache st).configs = st.configs ∧
    (clear_cache st).metrics = st.metrics ∧
    (clear_cache st).nextId = st.nextId :=
  ⟨rfl, rfl, rfl, rfl, rfl⟩

/-! ## The validator is observation-only (C8, C4) -/

theorem cycle_pass_state : ∀ (st : State) (l : List Ty), (cycle_pass st l).2 = st := by
  intro st l
  induction l with
  | nil => rfl
  | cons a l ih =>
    simp only [cycle_pass]
    split
    · exact ih
    · exact ih

theorem unresolved_pass_state (env : Env) :
    ∀ (st : State) (l : List (Ty × List (String × Ty))),
      (unresolved_pass env st l).2 = st := by
  intro st l
  induction l with
  | nil => rfl
  | cons d rest ih =>
    obtain ⟨ty, deps⟩ := d
    simp only [unresolved_pass]
    exact ih

/-- **C8** — `validate_configuration` is observation-only: for every
registry state it returns the state exactly as given; in particular every
metrics record is unchanged and the allocation counter is unchanged, so
no component constructor is invoked. -/
theorem claim8_validate_observation_only (env : Env) (st : State) :
    (validate_configuration env st).2 = st ∧
    (validate_configuration env st).2.metrics = st.metrics ∧
    (validate_configuration env st).2.nextId = st.nextId := by
  have h : (validate_configuration env st).2 = st := by
    unfold validate_configuration
    rw [unresolved_pass_state, cycle_pass_state]
  exact ⟨h, by rw [h], by rw [h]⟩

/-- Counterexample to C4 as stated: the registry `stVal` holds exactly one
cyclic pair (`0 ↔ 1`) and one type with one dangling dependency
(`2 → 3`), yet `validate_configuration` reports three issues, not two:
the cycle is reported once per member of the pair. -/
theorem claim4_counterexample :
    (validate_configuration envVal stVal).1 =
      [Issue.cyclic [0, 1, 0], Issue.cyclic [1, 0, 1],
        Issue.unresolvedDep 2 3] ∧
    (validate_configuration envVal stVal).1.length ≠ 2 := by
  exact ⟨rfl, by decide⟩

/-- **C4 (amended)** — On a registry with exactly one mutually-dependent
pair and one type with one dangling dependency,
`validate_configuration` returns exactly three issues (the cycle once per
member of the pair, in registry order, then the unresolved dependency),
and the state — metrics included — is unchanged. -/
theorem claim4_validate_three_issues :
    (validate_configuration envVal stVal).1.length = 3 ∧
    (validate_configuration envVal stVal).2 = stVal ∧
    (validate_configuration envVal stVal).2.metrics = stVal.metrics :=
  ⟨rfl, rfl, rfl⟩

end SpringDI
